import Mathlib

/-!
Verification of the upload-intake / metadata-index core of the Rouelment
file-upload service (src/index.js, src/middleware/verifyToken.js and the
unnamed variant files).  The service variants are shallowly embedded:

* the local-disk variant (`uploadSync`, `downloadSync`, the `/files` sort),
* the ImageKit variant (`uploadIK`, `downloadIK`) whose index read-modify-write
  crosses `await` boundaries (`runSched` models the interleavings),
* the multer configuration (`fileFilter`, `uniqueFilename` with the
  `sanitize-filename` package modelled by `sanitizeFilename` and Node's
  `path.extname` modelled by `extname`),
* the Firebase auth middleware (`verifyToken`).

Timestamps (`Date.now()`, `new Date().toISOString()`) are modelled as natural
numbers of milliseconds; ISO-8601 strings produced by `toISOString` compare
exactly like their numeric timestamps, so this preserves the `/files`
comparator `new Date(b.receivedAt) - new Date(a.receivedAt)`.  The JSON
round-trip through `uploads/metadata.json` is modelled by keeping the parsed
array (`JSON.parse` after `JSON.stringify` is the identity on these records).
-/

/-- `startsWithL hay needle` : does the char list `hay` start with `needle`?
Used to model JavaScript `String.prototype.startsWith` / regex anchors. -/
def startsWithL : List Char → List Char → Bool
  | _, [] => true
  | [], _ :: _ => false
  | h :: t, n :: ns => h == n && startsWithL t ns

/-- `hasSubL needle hay` : does `hay` contain `needle` as a contiguous
substring?  Models JavaScript `String.prototype.includes`. -/
def hasSubL (needle : List Char) : List Char → Bool
  | [] => needle.isEmpty
  | c :: t => startsWithL (c :: t) needle || hasSubL needle t

/-- `filename.includes("..")` — the traversal check of both download routes. -/
def containsDotDot (s : String) : Bool :=
  hasSubL ['.', '.'] s.data

/-- Byte-budget truncation of the `truncate-utf8-bytes` dependency of
`sanitize-filename` (limit 255 bytes, never splitting a character). -/
def utf8Truncate : List Char → Nat → List Char
  | [], _ => []
  | c :: t, budget =>
    if c.utf8Size ≤ budget then c :: utf8Truncate t (budget - c.utf8Size) else []

/-- `String.prototype.toLowerCase` restricted to what the extension check
needs: character-wise lowering (on the ASCII allow-list extensions this
agrees exactly with the JavaScript behaviour). -/
def toLowerStr (s : String) : String :=
  String.mk (s.data.map Char.toLower)

/-- Node.js posix `path.extname`: the suffix of the basename from its last
dot, or `""` when the basename has no dot, when the last dot is the
basename's first character (hidden files like `".pdf"`), or when the
basename is exactly `".."`. -/
def extname (s : String) : String :=
  let cs := s.data
  let noTrail := (cs.reverse.dropWhile (fun c => c == '/')).reverse
  let base := (noTrail.reverse.takeWhile (fun c => c != '/')).reverse
  let revBase := base.reverse
  let afterDot := revBase.takeWhile (fun c => c != '.')
  if afterDot.length == revBase.length then ""
  else if afterDot.length + 1 == revBase.length then ""
  else if base == ['.', '.'] then ""
  else String.mk ('.' :: afterDot.reverse)

/-- `const allowedExt = [".pdf", ".doc", ".docx", ".xls", ".xlsx", ".csv"]` -/
def allowedExt : List String := [".pdf", ".doc", ".docx", ".xls", ".xlsx", ".csv"]

/-- multer `fileFilter`: accept iff `path.extname(file.originalname)
.toLowerCase()` is in the allow-list; otherwise the upload is aborted with
`new Error("Type de fichier non autorisé: " + ext)` before any byte is
written. -/
def fileFilter (originalname : String) : Bool :=
  allowedExt.contains (toLowerStr (extname originalname))

/-- Characters removed by `sanitize-filename`'s `illegalRe`. -/
def illegalChar (c : Char) : Bool :=
  c == '/' || c == '?' || c == '<' || c == '>' || c == '\\' ||
  c == ':' || c == '*' || c == '|' || c == '"'

/-- Characters removed by `sanitize-filename`'s `controlRe`
(`[\x00-\x1f\x80-\x9f]`). -/
def controlChar (c : Char) : Bool :=
  c.val ≤ 0x1f || (0x80 ≤ c.val && c.val ≤ 0x9f)

/-- Windows reserved device names matched by `windowsReservedRe`. -/
def reservedNames : List String :=
  ["con", "prn", "aux", "nul"] ++
  ((List.range 10).map fun d => "com" ++ toString d) ++
  ((List.range 10).map fun d => "lpt" ++ toString d)

/-- Does the whole string match `^(con|prn|aux|nul|com[0-9]|lpt[0-9])(\..*)?$`
case-insensitively? -/
def isWindowsReserved (cs : List Char) : Bool :=
  let low := cs.map Char.toLower
  reservedNames.any fun w =>
    low == w.data || startsWithL low (w.data ++ ['.'])

/-- The `sanitize-filename` npm package with the default replacement `""`:
strip illegal characters, strip control characters, erase an all-dots name,
erase a Windows reserved device name, strip trailing dots and spaces, then
truncate to 255 utf-8 bytes. -/
def sanitizeFilename (s : String) : String :=
  let cs1 := s.data.filter (fun c => !(illegalChar c))
  let cs2 := cs1.filter (fun c => !(controlChar c))
  let cs3 := if cs2.length != 0 && cs2.all (fun c => c == '.') then [] else cs2
  let cs4 := if isWindowsReserved cs3 then [] else cs3
  let cs5 := (cs4.reverse.dropWhile (fun c => c == '.' || c == ' ')).reverse
  String.mk (utf8Truncate cs5 255)

/-- multer `diskStorage.filename`:
`` `${Date.now()}-${Math.round(Math.random() * 1e9)}-${sanitize(file.originalname)}` ``
with `Date.now()` and the random draw passed in as naturals. -/
def uniqueFilename (now rand : Nat) (originalname : String) : String :=
  toString now ++ "-" ++ toString rand ++ "-" ++ sanitizeFilename originalname

/-- One record of `uploads/metadata.json` in the local-disk variant:
`{ originalName, storedAs, receivedAt }`. -/
structure UploadRecord where
  originalName : String
  storedAs : String
  receivedAt : Nat
  deriving Repr, DecidableEq

/-- One record of the ImageKit variant: `{ originalName, storedAs, url,
receivedAt }`. -/
structure UploadRecordIK where
  originalName : String
  storedAs : String
  url : String
  receivedAt : Nat
  deriving Repr, DecidableEq

/-- `sendNotificationToAll`: awaits `admin.messaging().send(message)` inside
its own `try`/`catch`; a rejected send is caught and logged
(`console.error("❌ Erreur FCM :", ...)`), so the function itself always
resolves.  The FCM outcome is passed in; the returned value is the log line,
always wrapped in `.ok`. -/
def sendNotificationToAll (fcmOutcome : Except String String) :
    Except String (List String) :=
  match fcmOutcome with
  | .ok resp => .ok ["FCM sent: " ++ resp]
  | .error e => .ok ["FCM error: " ++ e]

/-- `const UPLOAD_DIR = path.join(process.cwd(), "uploads")`, relative part. -/
def UPLOAD_DIR : String := "uploads"

/-- Persistent state of the local-disk variant: the files present in
`UPLOAD_DIR` (written by multer's `diskStorage`) and the parsed content of
`uploads/metadata.json`. -/
structure SyncState where
  files : List String
  meta : List UploadRecord
  deriving Repr, DecidableEq

/-- Responses of the local-disk `POST /upload` handler. -/
inductive UploadResponse where
  /-- `200 {message, originalName, storedAs, receivedAt}` -/
  | success (r : UploadRecord)
  /-- multer aborts with `Error("Type de fichier non autorisé: " + ext)` -/
  | unsupportedType (ext : String)
  /-- `500 {error: "Erreur serveur lors de l'upload"}` -/
  | serverError
  deriving Repr, DecidableEq

/-- The local-disk `POST /upload` pipeline: multer's `fileFilter` runs first
and, on rejection, nothing is written; otherwise `diskStorage` writes the
file under `uniqueFilename`, then the handler reads `metadata.json`, pushes
`{originalName, storedAs, receivedAt}`, writes it back (`indexWriteOk` models
whether `writeFileSync` succeeds; on a throw the `catch` answers 500 with the
file left on disk), awaits `sendNotificationToAll` and answers 200 with the
same fields it pushed. -/
def uploadSync (st : SyncState) (name : String) (now rand recvAt : Nat)
    (indexWriteOk : Bool) (fcm : Except String String) :
    UploadResponse × SyncState :=
  if fileFilter name then
    let storedAs := uniqueFilename now rand name
    let files := st.files ++ [storedAs]
    let r : UploadRecord := ⟨name, storedAs, recvAt⟩
    if indexWriteOk then
      match sendNotificationToAll fcm with
      | .ok _ => (.success r, ⟨files, st.meta ++ [r]⟩)
      | .error _ => (.serverError, ⟨files, st.meta ++ [r]⟩)
    else (.serverError, ⟨files, st.meta⟩)
  else (.unsupportedType (toLowerStr (extname name)), st)

/-- Responses of the download routes. -/
inductive DownloadResult where
  /-- `400 "Nom de fichier invalide"` -/
  | invalidKey
  /-- `404 "Fichier non trouvé"` -/
  | notFound
  /-- `res.download(filePath)` -/
  | download (filePath : String)
  /-- `res.redirect(fileMeta.url)` (ImageKit variant) -/
  | redirect (url : String)
  deriving Repr, DecidableEq

/-- The local-disk `GET /download/:filename` handler: reject names containing
`".."`, then serve `path.join(UPLOAD_DIR, filename)` whenever
`fs.existsSync` holds — the metadata index is never consulted. -/
def downloadSync (st : SyncState) (filename : String) : DownloadResult :=
  if containsDotDot filename then .invalidKey
  else
    let filePath := UPLOAD_DIR ++ "/" ++ filename
    if st.files.contains filename then .download filePath else .notFound

/-- Stable insertion of a record into a list already sorted by `receivedAt`
descending: the newcomer goes after every record whose key is ≥ its own. -/
def insertDesc (r : UploadRecord) : List UploadRecord → List UploadRecord
  | [] => [r]
  | x :: xs =>
    if r.receivedAt ≤ x.receivedAt then x :: insertDesc r xs
    else r :: x :: xs

/-- The `GET /files` sort
`meta.sort((a, b) => new Date(b.receivedAt) - new Date(a.receivedAt))`:
`Array.prototype.sort` is stable (ES2019), so the result is the unique
stable reordering that is descending in `receivedAt`; computed here as a
stable insertion sort with the same comparator. -/
def sortMeta (l : List UploadRecord) : List UploadRecord :=
  l.foldl (fun acc r => insertDesc r acc) []

/-- Persistent state of the ImageKit variant: local staging files written by
multer, the ImageKit store (fileName paired with the returned url) and the
parsed `metadata.json`. -/
structure IKState where
  localFiles : List String
  ikStore : List (String × String)
  meta : List UploadRecordIK
  deriving Repr, DecidableEq

/-- Responses of the ImageKit `POST /upload` handler. -/
inductive IKResponse where
  /-- `200 {message, originalName, storedAs, url, receivedAt}` -/
  | success (r : UploadRecordIK)
  /-- multer aborts before any byte is persisted -/
  | unsupportedType (ext : String)
  /-- `500 {error: "Erreur serveur lors de l'upload"}` -/
  | serverError
  deriving Repr, DecidableEq

/-- The ImageKit `POST /upload` pipeline: after `fileFilter` and the local
multer write, the handler uploads the buffer to ImageKit (`blobOutcome`,
yielding `result.url`); a rejected upload is caught and answered 500 with no
index mutation (the staged local file remains).  On success the local file is
unlinked, the record (with `url`) is pushed onto `metadata.json`
(`indexWriteOk` models `writeFile`), the notification is awaited and the same
record is returned. -/
def uploadIK (st : IKState) (name : String) (now rand recvAt : Nat)
    (blobOutcome : Except String String) (indexWriteOk : Bool)
    (fcm : Except String String) : IKResponse × IKState :=
  if fileFilter name then
    let key := uniqueFilename now rand name
    let staged := st.localFiles ++ [key]
    match blobOutcome with
    | .error _ => (.serverError, ⟨staged, st.ikStore, st.meta⟩)
    | .ok url =>
      let localFiles := staged.erase key
      let ikStore := st.ikStore ++ [(key, url)]
      let r : UploadRecordIK := ⟨name, key, url, recvAt⟩
      if indexWriteOk then
        match sendNotificationToAll fcm with
        | .ok _ => (.success r, ⟨localFiles, ikStore, st.meta ++ [r]⟩)
        | .error _ => (.serverError, ⟨localFiles, ikStore, st.meta ++ [r]⟩)
      else (.serverError, ⟨localFiles, ikStore, st.meta⟩)
  else (.unsupportedType (toLowerStr (extname name)), st)

/-- `meta.find(f => f.storedAs === filename)` — the index lookup of the
ImageKit download route. -/
def findByKey (meta : List UploadRecordIK) (filename : String) :
    Option UploadRecordIK :=
  meta.find? (fun f => f.storedAs == filename)

/-- The ImageKit `GET /download/:filename` handler: reject names containing
`".."` before reading anything, then look the key up in `metadata.json` and
redirect to the record's `url`, or answer 404 when absent. -/
def downloadIK (meta : List UploadRecordIK) (filename : String) :
    DownloadResult :=
  if containsDotDot filename then .invalidKey
  else
    match findByKey meta filename with
    | none => .notFound
    | some r => .redirect r.url

/-- A read-only request of the local-disk variant: `GET /files` or
`GET /download/:filename`. -/
inductive QueryOp where
  | filesOp
  | downloadOp (filename : String)
  deriving Repr, DecidableEq

/-- Output of a read-only request. -/
inductive QueryOut where
  | listing (records : List UploadRecord)
  | dl (r : DownloadResult)
  deriving Repr, DecidableEq

/-- One read-only request as a state transformer, translated from the two
handlers: `GET /files` parses `metadata.json`, sorts the parsed in-memory
array and serialises it in the response — neither handler contains a write
to `META_FILE` or to `UPLOAD_DIR`, so the persistent state passes through. -/
def runQuery (st : SyncState) : QueryOp → QueryOut × SyncState
  | .filesOp => (.listing (sortMeta st.meta), st)
  | .downloadOp f => (.dl (downloadSync st f), st)

/-- Run a sequence of read-only requests, threading the persistent state. -/
def runQueries (st : SyncState) : List QueryOp → SyncState
  | [] => st
  | op :: rest => runQueries (runQuery st op).2 rest

/-- Progress of one in-flight ImageKit-variant intake through the index
read-modify-write `meta = JSON.parse(await readFile(META_FILE))` /
`meta.push(r)` / `await writeFile(META_FILE, JSON.stringify(meta))`: the two
`await`s make the read and the write separate atomic steps of the event
loop. -/
inductive Phase where
  /-- about to `await fsPromises.readFile(META_FILE)` -/
  | toRead
  /-- holds the parsed snapshot, about to push and `await writeFile` -/
  | toWrite (snapshot : List UploadRecordIK)
  /-- `writeFile` resolved; handler answers `200` -/
  | done
  deriving Repr, DecidableEq

/-- One concurrent intake request that has already passed `fileFilter` and
the blob write, carrying the record it will append. -/
structure IntakeTask where
  r : UploadRecordIK
  phase : Phase
  deriving Repr, DecidableEq

/-- The shared `metadata.json` content together with the in-flight intakes. -/
structure ConcState where
  meta : List UploadRecordIK
  tasks : List IntakeTask
  deriving Repr, DecidableEq

/-- Let task `i` take its next atomic step: a `toRead` task snapshots the
current file content; a `toWrite` task overwrites the file with its snapshot
plus its own record (exactly `meta.push(r)` then `writeFile`). -/
def stepTask (st : ConcState) (i : Nat) : ConcState :=
  match st.tasks.get? i with
  | none => st
  | some t =>
    match t.phase with
    | .toRead =>
      { st with tasks := st.tasks.set i { t with phase := .toWrite st.meta } }
    | .toWrite snap =>
      { meta := snap ++ [t.r], tasks := st.tasks.set i { t with phase := .done } }
    | .done => st

/-- Run an interleaving: the schedule lists which task steps next. -/
def runSched (st : ConcState) : List Nat → ConcState
  | [] => st
  | i :: rest => runSched (stepTask st i) rest

/-- Outcome of the `verifyToken` middleware. -/
inductive AuthOutcome where
  /-- `401 {error: "Token manquant"}` -/
  | missingToken
  /-- `401 {error: "Token invalide"}` -/
  | invalidToken
  /-- `next()` with `req.user` attached: the request is admitted -/
  | admitted (uid : String)
  deriving Repr, DecidableEq

/-- The suffix after the first occurrence of `sep`, or `none` when `sep`
does not occur. -/
def afterFirstSub (sep : List Char) : List Char → Option (List Char)
  | [] => if sep.isEmpty then some [] else none
  | c :: t =>
    if startsWithL (c :: t) sep then some (List.drop sep.length (c :: t))
    else afterFirstSub sep t

/-- The longest preceding segment that does not reach another occurrence of
`sep`. -/
def takeUntilSub (sep : List Char) : List Char → List Char
  | [] => []
  | c :: t => if startsWithL (c :: t) sep then [] else c :: takeUntilSub sep t

/-- `authHeader.split("Bearer ")[1]`: the chunk between the first occurrence
of `"Bearer "` and the next one (or the end), or `undefined` (here `none`)
when the separator is absent. -/
def bearerSplit (h : String) : Option String :=
  match afterFirstSub "Bearer ".data h.data with
  | none => none
  | some rest => some (String.mk (takeUntilSub "Bearer ".data rest))

/-- `middleware/verifyToken.js`, line for line: reject when the header is
absent or does not start with `" "` (a single space — the guard as written in
the source); otherwise take `authHeader.split("Bearer ")[1]` and pass it to
`admin.auth().verifyIdToken`, whose behaviour is the `verifyIdToken`
parameter (`none` covers both a rejected token and the `undefined` argument
produced when the separator is absent — either way the `try` fails and the
`catch` answers 401). -/
def verifyToken (verifyIdToken : String → Option String)
    (authHeader : Option String) : AuthOutcome :=
  match authHeader with
  | none => .missingToken
  | some h =>
    if !(startsWithL h.data [' ']) then .missingToken
    else
      match bearerSplit h with
      | none => .invalidToken
      | some t =>
        match verifyIdToken t with
        | some uid => .admitted uid
        | none => .invalidToken

/-! ## Helper lemmas about the `/files` sort -/

/-- Membership in a stable insertion is membership in the cons. -/
theorem mem_insertDesc {y r : UploadRecord} {l : List UploadRecord} :
    y ∈ insertDesc r l ↔ y = r ∨ y ∈ l := by
  induction l with
  | nil => simp [insertDesc]
  | cons x xs ih =>
    by_cases h : r.receivedAt ≤ x.receivedAt
    · simp only [insertDesc, if_pos h, List.mem_cons, ih]
      tauto
    · simp only [insertDesc, if_neg h, List.mem_cons]

/-- Stable insertion preserves the descending order on `receivedAt`. -/
theorem insertDesc_sorted {r : UploadRecord} {l : List UploadRecord}
    (hs : List.Pairwise (fun a b => b.receivedAt ≤ a.receivedAt) l) :
    List.Pairwise (fun a b => b.receivedAt ≤ a.receivedAt) (insertDesc r l) := by
  induction l with
  | nil => simp [insertDesc]
  | cons x xs ih =>
    rcases List.pairwise_cons.mp hs with ⟨hx, hxs⟩
    by_cases h : r.receivedAt ≤ x.receivedAt
    · simp only [insertDesc, if_pos h]
      refine List.pairwise_cons.mpr ⟨?_, ih hxs⟩
      intro y hy
      rcases mem_insertDesc.mp hy with rfl | hy2
      · exact h
      · exact hx y hy2
    · simp only [insertDesc, if_neg h]
      refine List.pairwise_cons.mpr ⟨?_, hs⟩
      intro y hy
      rcases List.mem_cons.mp hy with rfl | hy2
      · exact Nat.le_of_lt (Nat.lt_of_not_le h)
      · exact Nat.le_trans (hx y hy2) (Nat.le_of_lt (Nat.lt_of_not_le h))

/-- On a list sorted descending, stable insertion puts the newcomer after
every record with its `receivedAt`: filtering one timestamp class appends
the newcomer at the end. -/
theorem insertDesc_filter (r : UploadRecord) (k : Nat) {l : List UploadRecord}
    (hs : List.Pairwise (fun a b => b.receivedAt ≤ a.receivedAt) l) :
    (insertDesc r l).filter (fun y => y.receivedAt == k)
      = l.filter (fun y => y.receivedAt == k)
        ++ (if r.receivedAt == k then [r] else []) := by
  induction l with
  | nil => by_cases hr : r.receivedAt = k <;> simp [insertDesc, hr]
  | cons x xs ih =>
    rcases List.pairwise_cons.mp hs with ⟨hx, hxs⟩
    by_cases h : r.receivedAt ≤ x.receivedAt
    · simp only [insertDesc, if_pos h, List.filter_cons]
      rw [ih hxs]
      by_cases hx2 : x.receivedAt = k <;> simp [hx2]
    · have hlt : x.receivedAt < r.receivedAt := Nat.lt_of_not_le h
      simp only [insertDesc, if_neg h, List.filter_cons]
      by_cases hr : r.receivedAt = k
      · have hxf : x.receivedAt ≠ k := Nat.ne_of_lt (hr ▸ hlt)
        have hnil : List.filter (fun y => y.receivedAt == k) xs = [] := by
          refine List.filter_eq_nil_iff.mpr ?_
          intro y hy
          have hyk : y.receivedAt < k :=
            hr ▸ Nat.lt_of_le_of_lt (hx y hy) hlt
          simp [Nat.ne_of_lt hyk]
        simp [hr, hxf, hnil]
      · simp [hr, Ne.symm hr]

/-- Stable insertion is a permutation of the cons. -/
theorem insertDesc_perm (r : UploadRecord) (l : List UploadRecord) :
    (insertDesc r l).Perm (r :: l) := by
  induction l with
  | nil => simp [insertDesc]
  | cons x xs ih =>
    by_cases h : r.receivedAt ≤ x.receivedAt
    · simp only [insertDesc, if_pos h]
      exact (ih.cons x).trans (List.Perm.swap r x xs)
    · simp only [insertDesc, if_neg h]
      exact List.Perm.refl _

/-- The insertion fold starting from a sorted accumulator stays sorted. -/
theorem sortAux_sorted (l : List UploadRecord) :
    ∀ acc, List.Pairwise (fun a b => b.receivedAt ≤ a.receivedAt) acc →
      List.Pairwise (fun a b => b.receivedAt ≤ a.receivedAt)
        (l.foldl (fun acc r => insertDesc r acc) acc) := by
  induction l with
  | nil => intro acc h; simpa using h
  | cons r t ih =>
    intro acc h
    simpa only [List.foldl_cons] using ih _ (insertDesc_sorted h)

/-- Each timestamp class of the insertion fold is the accumulator's class
followed by the input's class, in input order. -/
theorem sortAux_filter (k : Nat) (l : List UploadRecord) :
    ∀ acc, List.Pairwise (fun a b => b.receivedAt ≤ a.receivedAt) acc →
      (l.foldl (fun acc r => insertDesc r acc) acc).filter
          (fun y => y.receivedAt == k)
        = acc.filter (fun y => y.receivedAt == k)
          ++ l.filter (fun y => y.receivedAt == k) := by
  induction l with
  | nil => intro acc h; simp
  | cons r t ih =>
    intro acc h
    simp only [List.foldl_cons, List.filter_cons]
    rw [ih _ (insertDesc_sorted h), insertDesc_filter r k h]
    by_cases hr : r.receivedAt = k
    · simp [hr]
    · simp [hr]

/-- The insertion fold permutes the accumulator and the input. -/
theorem sortAux_perm (l : List UploadRecord) :
    ∀ acc, (l.foldl (fun acc r => insertDesc r acc) acc).Perm (acc ++ l) := by
  induction l with
  | nil => intro acc; simp
  | cons r t ih =>
    intro acc
    simp only [List.foldl_cons]
    refine ((ih _).trans ?_)
    refine ((insertDesc_perm r acc).append_right t).trans ?_
    exact List.perm_middle.symm

/-! ## Claims -/

/-- C1: the ImageKit-variant index append is an unsynchronized
read-modify-write whose read and write are separated by `await` boundaries,
so the claim that N concurrent successful intakes leave exactly N records
fails: with two concurrent intakes of distinct valid files scheduled so that
both parse `metadata.json` before either writes it back, both handlers run
to completion (each answers 200), yet the index ends with exactly one
record — the first append is overwritten and lost. -/
theorem concurrent_intakes_lose_update :
    ((runSched
        ⟨[], [⟨⟨"a.pdf", "1700000000000-1-a.pdf", "u1", 1⟩, .toRead⟩,
              ⟨⟨"b.pdf", "1700000000000-2-b.pdf", "u2", 1⟩, .toRead⟩]⟩
        [0, 1, 0, 1]).tasks.all fun t => t.phase == .done) = true
    ∧ (runSched
        ⟨[], [⟨⟨"a.pdf", "1700000000000-1-a.pdf", "u1", 1⟩, .toRead⟩,
              ⟨⟨"b.pdf", "1700000000000-2-b.pdf", "u2", 1⟩, .toRead⟩]⟩
        [0, 1, 0, 1]).meta.length = 1 :=
  ⟨rfl, rfl⟩

/-- C2 counterexample: in the local-disk variant, run an intake of `a.pdf`
whose blob write succeeds (multer stores the file in the upload directory)
but whose index append fails (`writeFileSync` throws): the handler answers
500, `list()` holds no record for the upload, yet `GET /download` on the
stored key serves the orphaned blob — a blob with no index record is exposed
as a readable record, refuting the "never exposed" half of the claim. -/
theorem orphan_blob_is_downloadable :
    uploadSync ⟨[], []⟩ "a.pdf" 1000 42 1000 false (.ok "id")
      = (.serverError, ⟨["1000-42-a.pdf"], []⟩)
    ∧ sortMeta (uploadSync ⟨[], []⟩ "a.pdf" 1000 42 1000 false (.ok "id")).2.meta
        = []
    ∧ downloadSync (uploadSync ⟨[], []⟩ "a.pdf" 1000 42 1000 false (.ok "id")).2
        "1000-42-a.pdf" = .download "uploads/1000-42-a.pdf" :=
  ⟨rfl, rfl, rfl⟩

/-- C2 (amended): a failed Blob Store write produces no ghost index record —
in the ImageKit variant a rejected `imagekit.upload` is caught, the handler
answers 500 and `metadata.json` is untouched — and the ImageKit download
route exposes a record only when its key is present in the index.  The
local-disk download route, however, serves any file present in the upload
directory without consulting the index, so the "a blob with no index record
is never exposed" half holds only for the index-mediated variant. -/
theorem blob_write_failure_no_ghost :
    (∀ (st : IKState) (name : String) (now rand recvAt : Nat) (e : String)
        (iw : Bool) (fcm : Except String String),
      (uploadIK st name now rand recvAt (.error e) iw fcm).2.meta = st.meta
        ∧ ∀ r : UploadRecordIK,
            (uploadIK st name now rand recvAt (.error e) iw fcm).1 ≠ .success r)
    ∧ (∀ (meta : List UploadRecordIK) (key url : String),
        downloadIK meta key = .redirect url →
          ∃ r ∈ meta, r.storedAs = key ∧ r.url = url) := by
  constructor
  · intro st name now rand recvAt e iw fcm
    constructor
    · by_cases hf : fileFilter name = true <;> simp [uploadIK, hf]
    · intro r
      by_cases hf : fileFilter name = true <;> simp [uploadIK, hf]
  · intro meta key url hred
    cases hdd : containsDotDot key with
    | true => simp [downloadIK, hdd] at hred
    | false =>
      simp only [downloadIK, hdd, Bool.false_eq_true, if_false] at hred
      cases hfind : findByKey meta key with
      | none => simp [hfind] at hred
      | some r =>
        simp only [hfind] at hred
        have hfind2 : meta.find? (fun f => f.storedAs == key) = some r := hfind
        have hmem : r ∈ meta := List.mem_of_find?_eq_some hfind2
        have hkey := List.find?_some hfind2
        cases hred
        exact ⟨r, hmem, by simpa using hkey, rfl⟩

/-- C2 witness: a concrete failed ImageKit write leaves the index empty, and
a concrete redirect is backed by an index record. -/
theorem blob_write_failure_no_ghost_witness :
    (uploadIK ⟨[], [], []⟩ "a.pdf" 1 2 3 (.error "down") true (.ok "x")).2.meta
        = []
    ∧ ∃ r ∈ [(⟨"p.pdf", "1-2-p.pdf", "ik-url-p", 4⟩ : UploadRecordIK)],
        r.storedAs = "1-2-p.pdf" ∧ r.url = "ik-url-p" :=
  ⟨(blob_write_failure_no_ghost.1 ⟨[], [], []⟩ "a.pdf" 1 2 3 "down" true
      (.ok "x")).1,
   blob_write_failure_no_ghost.2 [⟨"p.pdf", "1-2-p.pdf", "ik-url-p", 4⟩]
     "1-2-p.pdf" "ik-url-p" rfl⟩

/-- C3 counterexample: `sanitize-filename` keeps interior dots, so intaking
the allow-listed name `"a..b.pdf"` succeeds and returns the stored key
`"1000-7-a..b.pdf"`, which contains `".."`; `GET /download` on that very key
answers the invalid-key rejection instead of a location. -/
theorem roundtrip_fails_on_dotdot_name :
    fileFilter "a..b.pdf" = true
    ∧ uploadSync ⟨[], []⟩ "a..b.pdf" 1000 7 1000 true (.ok "x")
        = (.success ⟨"a..b.pdf", "1000-7-a..b.pdf", 1000⟩,
           ⟨["1000-7-a..b.pdf"], [⟨"a..b.pdf", "1000-7-a..b.pdf", 1000⟩]⟩)
    ∧ downloadSync (uploadSync ⟨[], []⟩ "a..b.pdf" 1000 7 1000 true (.ok "x")).2
        "1000-7-a..b.pdf" = .invalidKey :=
  ⟨rfl, rfl, rfl⟩

/-- C3 (amended): the round-trip holds for every successful intake whose
generated stored key does not contain `".."`: immediately after the intake,
`GET /download` on the returned key answers the blob's location. -/
theorem roundtrip_resolves_clean_keys (st : SyncState) (name : String)
    (now rand recvAt : Nat) (fcm : Except String String)
    (hf : fileFilter name = true)
    (hk : containsDotDot (uniqueFilename now rand name) = false) :
    downloadSync (uploadSync st name now rand recvAt true fcm).2
        (uniqueFilename now rand name)
      = .download (UPLOAD_DIR ++ "/" ++ uniqueFilename now rand name) := by
  cases fcm <;>
    simp [uploadSync, hf, sendNotificationToAll, downloadSync, hk]

/-- C3 witness: the round-trip at a concrete clean upload. -/
theorem roundtrip_resolves_clean_keys_witness :
    downloadSync (uploadSync ⟨[], []⟩ "report.pdf" 1 2 3 true (.ok "m")).2
        (uniqueFilename 1 2 "report.pdf")
      = .download (UPLOAD_DIR ++ "/" ++ uniqueFilename 1 2 "report.pdf") :=
  roundtrip_resolves_clean_keys ⟨[], []⟩ "report.pdf" 1 2 3 (.ok "m")
    (by decide) (by decide)

/-- C4: the Auth Gate guard tests whether the Authorization header starts
with `" "` — a single space — instead of the `"Bearer "` scheme, so a
request carrying the well-formed valid credential `"Bearer valid-token"`
(whose token the verifier maps to a principal) is rejected
`401 "Token manquant"` rather than admitted; a request with the header
absent is rejected as the claim demands.  The admission half of the claim is
therefore false on the code, against the code's own intent (it answers
"token missing" to a request that carries one and parses the token with
`split("Bearer ")`). -/
theorem valid_bearer_rejected :
    (fun t => if t == "valid-token" then some "user-1" else none) "valid-token"
        = some "user-1"
    ∧ verifyToken (fun t => if t == "valid-token" then some "user-1" else none)
        (some "Bearer valid-token") = .missingToken
    ∧ verifyToken (fun t => if t == "valid-token" then some "user-1" else none)
        none = .missingToken :=
  ⟨rfl, rfl, rfl⟩

/-- C5 counterexample: two distinct records share `receivedAt = 1000`, the
`"k1"` record having been appended first.  The `/files` sort keeps the
earlier append first (`Array.prototype.sort` is stable), so the claimed
output — the more recently appended `"k2"` record first — is not what the
code produces. -/
theorem files_sort_tie_keeps_append_order :
    sortMeta [⟨"a.pdf", "k1", 1000⟩, ⟨"b.pdf", "k2", 1000⟩]
        = [⟨"a.pdf", "k1", 1000⟩, ⟨"b.pdf", "k2", 1000⟩]
    ∧ sortMeta [⟨"a.pdf", "k1", 1000⟩, ⟨"b.pdf", "k2", 1000⟩]
        ≠ [⟨"b.pdf", "k2", 1000⟩, ⟨"a.pdf", "k1", 1000⟩] :=
  ⟨rfl, by decide⟩

/-- C5 (amended): `GET /files` returns all index records (a permutation of
the stored list) ordered by `receivedAt` descending, and ties are broken by
append order with the EARLIEST append first: every timestamp class of the
output equals the same class of the stored list, in stored (append)
order. -/
theorem files_sorted_desc_stable (l : List UploadRecord) (k : Nat) :
    (sortMeta l).Perm l
    ∧ List.Pairwise (fun a b => b.receivedAt ≤ a.receivedAt) (sortMeta l)
    ∧ (sortMeta l).filter (fun y => y.receivedAt == k)
        = l.filter (fun y => y.receivedAt == k) := by
  refine ⟨?_, ?_, ?_⟩
  · simpa using sortAux_perm l []
  · exact sortAux_sorted l [] List.Pairwise.nil
  · simpa using sortAux_filter k l [] List.Pairwise.nil

/-- C6: an upload whose declared name's lower-cased extension is not on the
allow-list is stopped by multer's `fileFilter` with the unsupported-type
error before anything runs: the response is the rejection and the post state
— upload directory and metadata index alike — is exactly the prior state,
so no blob is written and no record appended. -/
theorem unsupported_extension_rejected_without_side_effects
    (st : SyncState) (name : String) (now rand recvAt : Nat)
    (iw : Bool) (fcm : Except String String)
    (h : fileFilter name = false) :
    uploadSync st name now rand recvAt iw fcm
      = (.unsupportedType (toLowerStr (extname name)), st) := by
  simp [uploadSync, h]

/-- C6 witness: `"malware.exe"` is rejected with extension `".exe"` and a
non-empty prior state is untouched. -/
theorem unsupported_extension_rejected_without_side_effects_witness :
    uploadSync ⟨["7-7-old.pdf"], [⟨"old.pdf", "7-7-old.pdf", 5⟩]⟩ "malware.exe"
        9 9 9 true (.ok "m")
      = (.unsupportedType ".exe",
         ⟨["7-7-old.pdf"], [⟨"old.pdf", "7-7-old.pdf", 5⟩]⟩) :=
  (unsupported_extension_rejected_without_side_effects
      ⟨["7-7-old.pdf"], [⟨"old.pdf", "7-7-old.pdf", 5⟩]⟩ "malware.exe" 9 9 9
      true (.ok "m") (by decide)).trans rfl

/-- C7: the ImageKit download route rejects every key containing `".."`
with the invalid-key answer — uniformly in the index state, so no lookup
happens — and on every other key answers exactly as `findByKey` dictates:
404 when the key is absent, a redirect to the found record's stored
location otherwise. -/
theorem download_traversal_guard_and_delegation
    (meta : List UploadRecordIK) (key : String) :
    (containsDotDot key = true → downloadIK meta key = .invalidKey)
    ∧ (containsDotDot key = false →
        (findByKey meta key = none → downloadIK meta key = .notFound)
        ∧ ∀ r : UploadRecordIK, findByKey meta key = some r →
            downloadIK meta key = .redirect r.url) := by
  refine ⟨fun h => by simp [downloadIK, h],
    fun h => ⟨fun hn => by simp [downloadIK, h, hn],
      fun r hr => by simp [downloadIK, h, hr]⟩⟩

/-- C7 witness: the guard fires on `"../../etc/passwd"` whatever the index
holds, an absent clean key answers 404, a present one redirects. -/
theorem download_traversal_guard_and_delegation_witness :
    downloadIK [⟨"p.pdf", "1-2-p.pdf", "u9", 4⟩] "../../etc/passwd"
        = .invalidKey
    ∧ downloadIK [⟨"p.pdf", "1-2-p.pdf", "u9", 4⟩] "9-9-x.pdf" = .notFound
    ∧ downloadIK [⟨"p.pdf", "1-2-p.pdf", "u9", 4⟩] "1-2-p.pdf"
        = .redirect "u9" :=
  ⟨(download_traversal_guard_and_delegation
      [⟨"p.pdf", "1-2-p.pdf", "u9", 4⟩] "../../etc/passwd").1 (by decide),
   ((download_traversal_guard_and_delegation
      [⟨"p.pdf", "1-2-p.pdf", "u9", 4⟩] "9-9-x.pdf").2 (by decide)).1 rfl,
   ((download_traversal_guard_and_delegation
      [⟨"p.pdf", "1-2-p.pdf", "u9", 4⟩] "1-2-p.pdf").2 (by decide)).2 _ rfl⟩

/-- C8: once the blob write and the index append succeed, the intake's
response and final state are the success response and the appended state
whatever the push-messaging outcome: `sendNotificationToAll` swallows every
FCM failure in its own catch, so a notification failure never raises, never
turns the response into a failure and never rolls back the blob write or the
index append. -/
theorem notification_failure_never_fails_intake
    (st : SyncState) (name : String) (now rand recvAt : Nat)
    (fcm : Except String String) (hf : fileFilter name = true) :
    uploadSync st name now rand recvAt true fcm
      = (.success ⟨name, uniqueFilename now rand name, recvAt⟩,
         ⟨st.files ++ [uniqueFilename now rand name],
          st.meta ++ [⟨name, uniqueFilename now rand name, recvAt⟩]⟩) := by
  cases fcm <;> simp [uploadSync, hf, sendNotificationToAll]

/-- C8 witness: a concrete intake during an FCM outage still answers 200 and
still appends its record. -/
theorem notification_failure_never_fails_intake_witness :
    uploadSync ⟨[], []⟩ "report.pdf" 1 2 3 true (.error "FCM unavailable")
      = (.success ⟨"report.pdf", "1-2-report.pdf", 3⟩,
         ⟨["1-2-report.pdf"], [⟨"report.pdf", "1-2-report.pdf", 3⟩]⟩) :=
  (notification_failure_never_fails_intake ⟨[], []⟩ "report.pdf" 1 2 3
      (.error "FCM unavailable") (by decide)).trans rfl

/-- C9: on every successful intake the record pushed onto `metadata.json`
and the record serialized in the 200 response are one and the same record —
with `originalName` the raw client-supplied name (not its sanitized form),
`storedAs` the generated key and the shared `receivedAt`. -/
theorem response_record_equals_appended_record
    (st : SyncState) (name : String) (now rand recvAt : Nat)
    (fcm : Except String String) (hf : fileFilter name = true) :
    ∃ r : UploadRecord,
      uploadSync st name now rand recvAt true fcm
          = (.success r, ⟨st.files ++ [r.storedAs], st.meta ++ [r]⟩)
      ∧ r.originalName = name ∧ r.receivedAt = recvAt
      ∧ r.storedAs = uniqueFilename now rand name := by
  refine ⟨⟨name, uniqueFilename now rand name, recvAt⟩, ?_, rfl, rfl, rfl⟩
  cases fcm <;> simp [uploadSync, hf, sendNotificationToAll]

/-- C9 witness: a name whose sanitized form differs (`"my:file.pdf"` loses
its colon inside the stored key) is still recorded and returned raw, with
the appended record equal to the response record. -/
theorem response_record_equals_appended_record_witness :
    ∃ r : UploadRecord,
      uploadSync ⟨[], []⟩ "my:file.pdf" 5 6 7 true (.ok "m")
          = (.success r, ⟨[r.storedAs], [r]⟩)
      ∧ r.originalName = "my:file.pdf" ∧ r.receivedAt = 7
      ∧ r.storedAs = uniqueFilename 5 6 "my:file.pdf" :=
  response_record_equals_appended_record ⟨[], []⟩ "my:file.pdf" 5 6 7 (.ok "m")
    (by decide)

/-- C10: read-only requests never mutate the persisted state: after any
sequence of `GET /files` and `GET /download/:filename` calls the upload
directory and `metadata.json` are exactly what they were — the descending
sort lives only in the in-memory response assembled by `runQuery`. -/
theorem queries_preserve_state (st : SyncState) (ops : List QueryOp) :
    runQueries st ops = st := by
  induction ops generalizing st with
  | nil => rfl
  | cons op rest ih =>
    cases op <;> exact ih st
